import Mathlib

/-!
Shallow embedding of the go-libraw RAW decoding pipeline (package golibraw,
the RGBA-expansion variant of the source): `ConvertToImage`, the bit-depth
down-sampling step of `ProcessRaw`, `processFile`, `clearAndClose` and
`ProcessRaw`.  The external libraw engine is an opaque collaborator, so its
behaviour for one file is modelled as an abstract outcome record.  Go byte
slices are `List Nat` (elements below 256), Go `C.ushort` values are naturals
below 65536, and arithmetic the Go code performs in `C.ushort` or `uint16` is
taken mod 65536 where it appears.
-/

/-- An RGBA bitmap as produced by Go `image.NewRGBA(image.Rect(0, 0, w, h))`:
`pix` models `img.Pix`, a buffer of length `w*h*4` (stride `4*w`, no row
padding) in which pixel `(x, y)` occupies bytes `(y*w+x)*4 .. (y*w+x)*4+3`. -/
structure Bitmap where
  width : Nat
  height : Nat
  pix : List Nat
deriving Repr, DecidableEq

/-- One iteration of the inner loop body of `ConvertToImage`: read the three
source bytes of pixel `(x, y)` at offset `(y*w+x)*3` and write R, G, B and
alpha 255 at destination offset `(y*w+x)*4`.  All reads and writes are in
range whenever the size check of `ConvertToImage` has passed (proved below),
so the total `List.getD`/`List.set` faithfully model the Go slice accesses. -/
def setPixel (data : List Nat) (w x y : Nat) (pix : List Nat) : List Nat :=
  let offset := (y * w + x) * 3
  let r := data.getD offset 0
  let g := data.getD (offset + 1) 0
  let b := data.getD (offset + 2) 0
  let dstOffset := (y * w + x) * 4
  ((((pix.set dstOffset r).set (dstOffset + 1) g).set (dstOffset + 2) b).set
    (dstOffset + 3) 255)

/-- The nested `for y ... for x ...` loop of `ConvertToImage`, run over the
zero-initialised `img.Pix` buffer of `image.NewRGBA` (length `w*h*4`). -/
def convertRows (data : List Nat) (w h : Nat) : List Nat :=
  (List.range h).foldl
    (fun pix y => (List.range w).foldl (fun pix x => setPixel data w x y pix) pix)
    (List.replicate (w * h * 4) 0)

/-- The error message built by the size check of `ConvertToImage`
(`fmt.Errorf` with the got and want sizes). -/
def sizeMismatchMsg (got want : Nat) : String :=
  "unexpected data size: got " ++ toString got ++ ", want " ++ toString want

/-- `ConvertToImage(data, width, height, bits)` from the source: checks
`len(data) == width*height*3` (3 bytes per pixel for RGB), then converts the
packed RGB data to RGBA with alpha 255.  The `bits` parameter is never read
in the source body. -/
def ConvertToImage (data : List Nat) (width height bits : Nat) :
    Except String Bitmap :=
  let expectedSize := width * height * 3
  if data.length ≠ expectedSize then
    .error (sizeMismatchMsg data.length expectedSize)
  else
    .ok ⟨width, height, convertRows data width height⟩

/-- The bit-depth loop body of `ProcessRaw` (source: `for i := 0; i <
len(dataBytes); i += 2 { if i+1 < len(dataBytes) { value :=
uint16(dataBytes[i]) | uint16(dataBytes[i+1]) << 8; adjustedData[i/2] =
byte(value >> (bits - 8)) } }`).  `uint16` arithmetic is mod 65536 and the
`byte` conversion is mod 256.  A write with `i/2` out of range of
`adjustedData` is a Go runtime panic, modelled as `none`. -/
def downsampleLoop (dataBytes : List Nat) (bits i : Nat)
    (adjustedData : List Nat) : Option (List Nat) :=
  if h : i < dataBytes.length then
    if i + 1 < dataBytes.length then
      let value := (dataBytes.getD i 0 + dataBytes.getD (i + 1) 0 * 256) % 65536
      if i / 2 < adjustedData.length then
        downsampleLoop dataBytes bits (i + 2)
          (adjustedData.set (i / 2) ((value >>> (bits - 8)) % 256))
      else
        none
    else
      downsampleLoop dataBytes bits (i + 2) adjustedData
  else
    some adjustedData
termination_by dataBytes.length - i
decreasing_by
  all_goals omega

/-- The bit-depth handling step of `ProcessRaw`.  `w`, `h` and `bits` are the
`C.ushort` values reported by the engine; Go computes the length
`width*height*3` of `adjustedData := make([]byte, width*height*3)` in
`C.ushort` arithmetic, hence the mod 65536 on the allocated size.  For
`bits ≤ 8` the data is passed through unchanged. -/
def bitDepthAdjust (dataBytes : List Nat) (w h bits : Nat) :
    Option (List Nat) :=
  if bits > 8 then
    downsampleLoop dataBytes bits 0 (List.replicate (w * h * 3 % 65536) 0)
  else
    some dataBytes

/-- Shallow model of Go `time.Time`, restricted to the two ways the source
builds one: the zero value `time.Time{}` and `time.Unix(sec, 0)`. -/
inductive GoTime where
  | zeroTime : GoTime
  | fromUnix : Int → GoTime
deriving Repr, DecidableEq

/-- Go `Time.Unix()`: seconds since the Unix epoch.  The zero `time.Time`
(January 1, year 1 UTC) is 62135596800 seconds before the epoch. -/
def GoTime.unix : GoTime → Int
  | .zeroTime => -62135596800
  | .fromUnix s => s

/-- The metadata struct returned by `ProcessRaw`. -/
structure ImgMetadata where
  CaptureTimestamp : Int
  CaptureDate : GoTime
deriving Repr, DecidableEq

/-- The Go zero value `ImgMetadata{}`. -/
def zeroMetadata : ImgMetadata :=
  ⟨0, .zeroTime⟩

/-- Resource events of one decode session: allocation and release of the
engine context (`libraw_init` / `libraw_close`, with `libraw_recycle` before
a close on the success path) and of the in-memory output image
(`libraw_dcraw_make_mem_image` / `libraw_dcraw_clear_mem`). -/
inductive Ev where
  | ctxAlloc
  | ctxClose
  | ctxRecycle
  | memAlloc
  | memClear
deriving Repr, DecidableEq

/-- Abstract behaviour of the external libraw engine for one input file (the
spec treats the engine as an opaque collaborator).  A return code of 0 means
success, `strerror` models `libraw_strerror`, and on a successful in-memory
export the engine hands over `data` (the `dataSize` bytes that `C.GoBytes`
copies out), the `C.ushort` descriptor fields `width`, `height`, `bits`
(values below 65536) and the side-channel capture `timestamp`. -/
structure EngineSpec where
  initOk : Bool
  openRet : Int
  unpackRet : Int
  processRet : Int
  makeImgErr : Int
  memImgNil : Bool
  strerror : Int → String
  data : List Nat
  width : Nat
  height : Nat
  bits : Nat
  timestamp : Int

/-- Result of a successful `processFile`: the `C.GoBytes` copy of the
in-memory image data and the `C.ushort` descriptor fields. -/
structure SessionOut where
  data : List Nat
  width : Nat
  height : Nat
  bits : Nat
deriving Repr, DecidableEq

/-- `processFile` from the source: init, open, unpack, dcraw-process and
make-mem-image, each a failure point; after a successful init every failure
path calls `C.libraw_close(proc)` before returning.  Returns the outcome
together with the resource event trace. -/
def processFile (e : EngineSpec) : Except String SessionOut × List Ev :=
  if !e.initOk then
    (.error ("failed to initialize libraw"), [])
  else if e.openRet ≠ 0 then
    (.error ("libraw_open_file error: " ++ e.strerror e.openRet),
      [.ctxAlloc, .ctxClose])
  else if e.unpackRet ≠ 0 then
    (.error ("libraw_unpack error: " ++ e.strerror e.unpackRet),
      [.ctxAlloc, .ctxClose])
  else if e.processRet ≠ 0 then
    (.error ("libraw_dcraw_process error: " ++ e.strerror e.processRet),
      [.ctxAlloc, .ctxClose])
  else if e.makeImgErr ≠ 0 ∨ e.memImgNil = true then
    (.error ("libraw_dcraw_make_mem_image error: " ++ e.strerror e.makeImgErr),
      [.ctxAlloc, .ctxClose])
  else
    (.ok ⟨e.data, e.width, e.height, e.bits⟩, [.ctxAlloc, .memAlloc])

/-- `clearAndClose` from the source: `libraw_dcraw_clear_mem`,
`libraw_recycle`, `libraw_close`. -/
def clearAndCloseEvs : List Ev :=
  [.memClear, .ctxRecycle, .ctxClose]

/-- `ProcessRaw` from the source, instrumented with the resource event trace.
The outer `Option` is `none` when the bit-depth loop writes out of range (a
Go runtime panic instead of a return); the deferred `clearAndClose` still
runs while that panic unwinds, so its events are appended on that path too.
The Go result triple `(img, meta, err)` is kept as is: `img` is `none`
exactly when Go returns a nil image, `err` is `none` exactly when Go returns
a nil error. -/
def ProcessRawT (e : EngineSpec) :
    Option (Option Bitmap × ImgMetadata × Option String) × List Ev :=
  match processFile e with
  | (.error msg, evs) => (some (none, zeroMetadata, some msg), evs)
  | (.ok s, evs) =>
    match bitDepthAdjust s.data s.width s.height s.bits with
    | none => (none, evs ++ clearAndCloseEvs)
    | some dataBytes =>
      match ConvertToImage dataBytes s.width s.height 8 with
      | .error ce =>
        (some (none, zeroMetadata, some ("convert to image: " ++ ce)),
          evs ++ clearAndCloseEvs)
      | .ok img =>
        let timestamp := e.timestamp
        (some (some img, ⟨timestamp, .fromUnix timestamp⟩, none),
          evs ++ clearAndCloseEvs)

/-- The value a `ProcessRaw` call returns: the Go triple `(img, meta, err)`, or
`none` when the call panics instead of returning. -/
def ProcessRaw (e : EngineSpec) :
    Option (Option Bitmap × ImgMetadata × Option String) :=
  (ProcessRawT e).1

/-- The resource events emitted during one `ProcessRaw` call. -/
def ProcessRawEvents (e : EngineSpec) : List Ev :=
  (ProcessRawT e).2

/-- A packed buffer of `n` 16-bit little-endian samples all equal to `V`. -/
def uniform16 (V n : Nat) : List Nat :=
  (List.replicate n [V % 256, V / 256]).flatten

/-- The byte the conversion loop stores at flat index `i` of the RGBA buffer:
255 on the alpha lane, otherwise the matching source byte of pixel `i / 4`. -/
def rgbaAt (data : List Nat) (i : Nat) : Nat :=
  if i % 4 = 3 then 255 else data.getD (i / 4 * 3 + i % 4) 0

theorem getD_set_self (l : List Nat) (i v : Nat) (h : i < l.length) :
    (l.set i v).getD i 0 = v := by
  simp [List.getD_eq_getElem?_getD, List.getElem?_set_self h]

theorem getD_set_ne (l : List Nat) (i j v : Nat) (h : i ≠ j) :
    (l.set i v).getD j 0 = l.getD j 0 := by
  simp [List.getD_eq_getElem?_getD, List.getElem?_set_ne h]

theorem setPixel_length (data : List Nat) (w x y : Nat) (pix : List Nat) :
    (setPixel data w x y pix).length = pix.length := by
  simp [setPixel]

theorem rowFold_length (data : List Nat) (w y : Nat) (xs : List Nat)
    (pix : List Nat) :
    (xs.foldl (fun pix x => setPixel data w x y pix) pix).length = pix.length := by
  induction xs generalizing pix with
  | nil => rfl
  | cons a xs ih => simp [ih, setPixel_length]

theorem rowsFold_length (data : List Nat) (w : Nat) (ys : List Nat)
    (pix : List Nat) :
    (ys.foldl
      (fun pix y => (List.range w).foldl (fun pix x => setPixel data w x y pix) pix)
      pix).length = pix.length := by
  induction ys generalizing pix with
  | nil => rfl
  | cons a ys ih => simp [ih, rowFold_length]

theorem convertRows_length (data : List Nat) (w h : Nat) :
    (convertRows data w h).length = w * h * 4 := by
  simp [convertRows, rowsFold_length]

/-- What one `setPixel` does to every flat index: the four bytes of its block
get the RGBA values of the pixel, everything else is untouched. -/
theorem setPixel_getD (data : List Nat) (w x y : Nat) (pix : List Nat)
    (hlen : (y * w + x) * 4 + 4 ≤ pix.length) (i : Nat) :
    (setPixel data w x y pix).getD i 0 =
      if (y * w + x) * 4 ≤ i ∧ i < (y * w + x) * 4 + 4 then rgbaAt data i
      else pix.getD i 0 := by
  unfold setPixel
  by_cases hin : (y * w + x) * 4 ≤ i ∧ i < (y * w + x) * 4 + 4
  · rw [if_pos hin]
    have hcase : i = (y * w + x) * 4 ∨ i = (y * w + x) * 4 + 1 ∨
        i = (y * w + x) * 4 + 2 ∨ i = (y * w + x) * 4 + 3 := by omega
    have h4 : ((y * w + x) * 4) % 4 = 0 := by omega
    have h4' : ((y * w + x) * 4) / 4 = y * w + x := by omega
    rcases hcase with hi | hi | hi | hi <;> subst hi
    · rw [getD_set_ne _ _ _ _ (by omega), getD_set_ne _ _ _ _ (by omega),
        getD_set_ne _ _ _ _ (by omega),
        getD_set_self _ _ _ (by omega)]
      rw [rgbaAt, if_neg (by omega)]
      congr 1
      omega
    · rw [getD_set_ne _ _ _ _ (by omega), getD_set_ne _ _ _ _ (by omega),
        getD_set_self _ _ _ (by simp [List.length_set]; omega)]
      rw [rgbaAt, if_neg (by omega)]
      congr 1
      omega
    · rw [getD_set_ne _ _ _ _ (by omega),
        getD_set_self _ _ _ (by simp [List.length_set]; omega)]
      rw [rgbaAt, if_neg (by omega)]
      congr 1
      omega
    · rw [getD_set_self _ _ _ (by simp [List.length_set]; omega)]
      rw [rgbaAt, if_pos (by omega)]
  · rw [if_neg hin]
    rw [getD_set_ne _ _ _ _ (by omega), getD_set_ne _ _ _ _ (by omega),
      getD_set_ne _ _ _ _ (by omega), getD_set_ne _ _ _ _ (by omega)]

/-- What one whole row of the conversion loop does: writes the contiguous
block of pixels `y*w .. y*w+m-1`, leaves everything else untouched. -/
theorem rowFold_getD (data : List Nat) (w y : Nat) :
    ∀ (m : Nat), m ≤ w → ∀ pix : List Nat, 4 * (y * w + m) ≤ pix.length →
      ∀ i, ((List.range m).foldl (fun pix x => setPixel data w x y pix) pix).getD i 0 =
        if 4 * (y * w) ≤ i ∧ i < 4 * (y * w + m) then rgbaAt data i
        else pix.getD i 0 := by
  intro m
  induction m with
  | zero =>
    intro _ pix _ i
    rw [List.range_zero, List.foldl_nil, if_neg (by omega)]
  | succ m ih =>
    intro hm pix hlen i
    rw [List.range_succ, List.foldl_append, List.foldl_cons, List.foldl_nil]
    rw [setPixel_getD data w m y _ (by rw [rowFold_length]; omega) i]
    by_cases hblk : (y * w + m) * 4 ≤ i ∧ i < (y * w + m) * 4 + 4
    · rw [if_pos hblk, if_pos (by omega)]
    · rw [if_neg hblk, ih (by omega) pix (by omega) i]
      by_cases hole : 4 * (y * w) ≤ i ∧ i < 4 * (y * w + m)
      · rw [if_pos hole, if_pos (by omega)]
      · rw [if_neg hole, if_neg (by omega)]

/-- What the full double loop of `ConvertToImage` produces at every flat
index of the freshly zeroed RGBA buffer. -/
theorem convertRows_getD (data : List Nat) (w h : Nat) (i : Nat) :
    (convertRows data w h).getD i 0 =
      if i < 4 * (h * w) then rgbaAt data i else 0 := by
  have replD : ∀ j, (List.replicate (w * h * 4) (0 : Nat)).getD j 0 = 0 := by
    intro j
    simp only [List.getD_eq_getElem?_getD, List.getElem?_replicate]
    split <;> rfl
  have main : ∀ (n : Nat), n ≤ h → ∀ i,
      ((List.range n).foldl
        (fun pix y => (List.range w).foldl (fun pix x => setPixel data w x y pix) pix)
        (List.replicate (w * h * 4) 0)).getD i 0 =
      if i < 4 * (n * w) then rgbaAt data i else 0 := by
    intro n
    induction n with
    | zero =>
      intro _ i
      rw [List.range_zero, List.foldl_nil, if_neg (by omega)]
      exact replD i
    | succ n ihn =>
      intro hn i
      rw [List.range_succ, List.foldl_append, List.foldl_cons, List.foldl_nil]
      have hlen : 4 * (n * w + w) ≤
          ((List.range n).foldl
            (fun pix y => (List.range w).foldl (fun pix x => setPixel data w x y pix) pix)
            (List.replicate (w * h * 4) 0)).length := by
        rw [rowsFold_length, List.length_replicate]
        have : n + 1 ≤ h := hn
        calc 4 * (n * w + w) = (n + 1) * w * 4 := by ring
          _ ≤ h * w * 4 := by
            have := Nat.mul_le_mul_right w this
            omega
          _ = w * h * 4 := by ring
      rw [rowFold_getD data w n w (le_refl w) _ hlen i]
      by_cases hrow : 4 * (n * w) ≤ i ∧ i < 4 * (n * w + w)
      · rw [if_pos hrow, if_pos (by
          have : n * w + w = (n + 1) * w := by ring
          omega)]
      · rw [if_neg hrow, ihn (by omega) i]
        have hsucc : (n + 1) * w = n * w + w := by ring
        by_cases hlt : i < 4 * (n * w)
        · rw [if_pos hlt, if_pos (by omega)]
        · rw [if_neg hlt, if_neg (by omega)]
  have := main h (le_refl h) i
  rw [convertRows]
  rw [this]

/-- The 16-to-8-bit value the bit-depth loop stores for sample `k`: the
little-endian pair at bytes `2k, 2k+1`, combined in `uint16`, shifted right
by `bits - 8` and truncated to a byte. -/
def downsampledAt (data : List Nat) (bits k : Nat) : Nat :=
  (((data.getD (2 * k) 0 + data.getD (2 * k + 1) 0 * 256) % 65536)
    >>> (bits - 8)) % 256

/-- Full run of the bit-depth loop when the output buffer has exactly one
slot per input sample pair: every slot `k ≥ j` receives the downsampled
sample `k`, slots below the start index keep their previous contents. -/
theorem downsampleLoop_complete (data : List Nat) (bits n : Nat)
    (hlen : data.length = 2 * n) :
    ∀ (m j : Nat) (adjusted : List Nat), j + m = n → adjusted.length = n →
      ∃ out, downsampleLoop data bits (2 * j) adjusted = some out ∧
        out.length = n ∧
        ∀ k, k < n →
          out.getD k 0 =
            if k < j then adjusted.getD k 0 else downsampledAt data bits k := by
  intro m
  induction m with
  | zero =>
    intro j adjusted hj hadj
    refine ⟨adjusted, ?_, hadj, ?_⟩
    · rw [downsampleLoop]
      rw [dif_neg (by omega)]
    · intro k hk
      rw [if_pos (by omega)]
  | succ m ih =>
    intro j adjusted hj hadj
    have hjn : j < n := by omega
    have hstep : downsampleLoop data bits (2 * j) adjusted =
        downsampleLoop data bits (2 * j + 2)
          (adjusted.set j (downsampledAt data bits j)) := by
      rw [downsampleLoop]
      rw [dif_pos (by omega)]
      rw [if_pos (by omega)]
      rw [if_pos (by omega)]
      have hdiv : 2 * j / 2 = j := by omega
      rw [hdiv]
      rfl
    obtain ⟨out, hout, hlen', hget⟩ :=
      ih (j + 1) (adjusted.set j (downsampledAt data bits j)) (by omega)
        (by simp [hadj])
    refine ⟨out, ?_, hlen', ?_⟩
    · rw [hstep]
      have h2 : 2 * (j + 1) = 2 * j + 2 := by omega
      rw [h2] at hout
      exact hout
    · intro k hk
      rw [hget k hk]
      by_cases hkj : k < j
      · rw [if_pos (by omega), if_pos hkj, getD_set_ne _ _ _ _ (by omega)]
      · by_cases hkj' : k = j
        · subst hkj'
          rw [if_pos (by omega), if_neg (by omega),
            getD_set_self _ _ _ (by omega)]
        · rw [if_neg (by omega), if_neg (by omega)]

/-- When the output buffer is strictly shorter than the number of input
sample pairs, the bit-depth loop reaches an out-of-range write and panics. -/
theorem downsampleLoop_oob (data : List Nat) (bits n L : Nat)
    (hlen : data.length = 2 * n) (hLn : L < n) :
    ∀ (m j : Nat) (adjusted : List Nat), j + m = L → adjusted.length = L →
      downsampleLoop data bits (2 * j) adjusted = none := by
  intro m
  induction m with
  | zero =>
    intro j adjusted hj hadj
    rw [downsampleLoop]
    rw [dif_pos (by omega), if_pos (by omega), if_neg (by omega)]
  | succ m ih =>
    intro j adjusted hj hadj
    rw [downsampleLoop]
    rw [dif_pos (by omega), if_pos (by omega), if_pos (by omega)]
    have h2 : 2 * j + 2 = 2 * (j + 1) := by omega
    have hdiv : 2 * j / 2 = j := by omega
    rw [hdiv, h2]
    exact ih (j + 1) _ (by omega) (by simp [hadj])

/-- The three ways a `processFile` call can end: failed init with an empty
trace, a later failure with the context closed, or success with both the
context and the output image live. -/
theorem processFile_cases (e : EngineSpec) :
    processFile e = (.error ("failed to initialize libraw"), []) ∨
    (∃ msg, processFile e = (.error msg, [.ctxAlloc, .ctxClose])) ∨
    processFile e =
      (.ok ⟨e.data, e.width, e.height, e.bits⟩, [.ctxAlloc, .memAlloc]) := by
  unfold processFile
  split
  · exact Or.inl rfl
  · split
    · exact Or.inr (Or.inl ⟨_, rfl⟩)
    · split
      · exact Or.inr (Or.inl ⟨_, rfl⟩)
      · split
        · exact Or.inr (Or.inl ⟨_, rfl⟩)
        · split
          · exact Or.inr (Or.inl ⟨_, rfl⟩)
          · exact Or.inr (Or.inr rfl)

/-- Every `ProcessRaw` call either panics, or returns zero values together
with an error, or returns an image together with the metadata built from the
engine timestamp and no error. -/
theorem processRaw_shape (e : EngineSpec) :
    ProcessRaw e = none ∨
    (∃ msg, ProcessRaw e = some (none, zeroMetadata, some msg)) ∨
    (∃ bm, ProcessRaw e =
      some (some bm, ⟨e.timestamp, .fromUnix e.timestamp⟩, none)) := by
  unfold ProcessRaw ProcessRawT
  rcases processFile_cases e with hpf | ⟨msg, hpf⟩ | hpf <;> rw [hpf] <;> dsimp only
  · exact Or.inr (Or.inl ⟨_, rfl⟩)
  · exact Or.inr (Or.inl ⟨msg, rfl⟩)
  · rcases hbd : bitDepthAdjust e.data e.width e.height e.bits with _ | adj <;>
      dsimp only
    · exact Or.inl rfl
    · rcases hc : ConvertToImage adj e.width e.height 8 with ce | bm <;>
        dsimp only
      · exact Or.inr (Or.inl ⟨"convert to image: " ++ ce, rfl⟩)
      · exact Or.inr (Or.inr ⟨bm, rfl⟩)

/-- The event traces `ProcessRaw` can emit, one per class of exit path. -/
theorem processRawEvents_shape (e : EngineSpec) :
    ProcessRawEvents e = [] ∨
    ProcessRawEvents e = [.ctxAlloc, .ctxClose] ∨
    ProcessRawEvents e =
      [.ctxAlloc, .memAlloc, .memClear, .ctxRecycle, .ctxClose] := by
  unfold ProcessRawEvents ProcessRawT
  rcases processFile_cases e with hpf | ⟨msg, hpf⟩ | hpf <;> rw [hpf] <;> dsimp only
  · exact Or.inl rfl
  · exact Or.inr (Or.inl rfl)
  · rcases hbd : bitDepthAdjust e.data e.width e.height e.bits with _ | adj <;>
      dsimp only
    · exact Or.inr (Or.inr rfl)
    · rcases hc : ConvertToImage adj e.width e.height 8 with ce | bm <;>
        dsimp only
      · exact Or.inr (Or.inr rfl)
      · exact Or.inr (Or.inr rfl)

/-- Claim C9: the result of `ConvertToImage` does not depend on its
`bitsPerSample` argument: the source body never reads `bits`, so any two
values of the parameter give identical results. -/
theorem convertToImage_bits_independent (data : List Nat) (w h b1 b2 : Nat) :
    ConvertToImage data w h b1 = ConvertToImage data w h b2 := rfl

/-- Claim C3: `ConvertToImage(bytes, w, h, 8)` returns the size-mismatch
error reporting the got and want sizes exactly when the input length differs
from `w*h*3`, and returns a bitmap with no error when it matches. -/
theorem convertToImage_size_check (data : List Nat) (w h : Nat) :
    (ConvertToImage data w h 8 =
        .error (sizeMismatchMsg data.length (w * h * 3)) ↔
      data.length ≠ w * h * 3) ∧
    (data.length = w * h * 3 →
      ConvertToImage data w h 8 = .ok ⟨w, h, convertRows data w h⟩) := by
  refine ⟨⟨fun hE heq => ?_, fun hne => ?_⟩, fun heq => ?_⟩
  · simp only [ConvertToImage] at hE
    rw [if_neg (by omega)] at hE
    exact Except.noConfusion hE
  · simp only [ConvertToImage]
    rw [if_pos hne]
  · simp only [ConvertToImage]
    rw [if_neg (by omega)]

/-- Claim C3 witness: the theorem at a 1-byte buffer (error case) and at an
exact 3-byte buffer (success case) for a 1x1 image. -/
theorem convertToImage_size_check_witness :
    ConvertToImage [0] 1 1 8 = .error (sizeMismatchMsg 1 3) ∧
    ConvertToImage [7, 8, 9] 1 1 8 = .ok ⟨1, 1, convertRows [7, 8, 9] 1 1⟩ :=
  ⟨(convertToImage_size_check [0] 1 1).1.mpr (by decide),
   (convertToImage_size_check [7, 8, 9] 1 1).2 (by decide)⟩

/-- Claim C4: on 8-bit packed RGB input of exact size `w*h*3`, every pixel
`(x, y)` of the returned bitmap carries the source bytes at offsets
`(y*w+x)*3`, `+1`, `+2` on its R, G, B channels and 255 on its alpha byte. -/
theorem convertToImage_pixels (data : List Nat) (w h : Nat)
    (hlen : data.length = w * h * 3) :
    ∃ bm, ConvertToImage data w h 8 = .ok bm ∧
      ∀ x y, x < w → y < h →
        (∀ c, c < 3 → bm.pix.getD ((y * w + x) * 4 + c) 0 =
          data.getD ((y * w + x) * 3 + c) 0) ∧
        bm.pix.getD ((y * w + x) * 4 + 3) 0 = 255 := by
  refine ⟨⟨w, h, convertRows data w h⟩, ?_, ?_⟩
  · simp only [ConvertToImage]
    rw [if_neg (by omega)]
  · intro x y hx hy
    have hq : y * w + x < h * w := by
      calc y * w + x < y * w + w := by omega
        _ = (y + 1) * w := by ring
        _ ≤ h * w := Nat.mul_le_mul_right w (by omega)
    refine ⟨fun c hc => ?_, ?_⟩
    · rw [convertRows_getD, if_pos (by omega), rgbaAt, if_neg (by omega)]
      congr 1
      omega
    · rw [convertRows_getD, if_pos (by omega), rgbaAt, if_pos (by omega)]

/-- Claim C4 witness: the theorem instantiated on a concrete 1x1 image. -/
theorem convertToImage_pixels_witness :
    ∃ bm, ConvertToImage [10, 20, 30] 1 1 8 = .ok bm ∧
      ∀ x y, x < 1 → y < 1 →
        (∀ c, c < 3 → bm.pix.getD ((y * 1 + x) * 4 + c) 0 =
          [10, 20, 30].getD ((y * 1 + x) * 3 + c) 0) ∧
        bm.pix.getD ((y * 1 + x) * 4 + 3) 0 = 255 :=
  convertToImage_pixels [10, 20, 30] 1 1 (by decide)

/-- Claim C10: with an empty input buffer and zero width or zero height,
`ConvertToImage` accepts the degenerate image and returns a bitmap with an
empty pixel buffer and no error. -/
theorem convertToImage_degenerate (w h : Nat) (hwh : w = 0 ∨ h = 0) :
    ConvertToImage [] w h 8 = .ok ⟨w, h, []⟩ := by
  have hpix : convertRows [] w h = [] := by
    have hl : (convertRows [] w h).length = 0 := by
      rw [convertRows_length]
      rcases hwh with h0 | h0 <;> simp [h0]
    exact List.length_eq_zero.mp hl
  simp only [ConvertToImage]
  rw [if_neg (by rcases hwh with h0 | h0 <;> simp [h0])]
  rw [hpix]

/-- Claim C10 witness: zero width with nonzero height. -/
theorem convertToImage_degenerate_witness :
    ConvertToImage [] 0 3 8 = .ok ⟨0, 3, []⟩ :=
  convertToImage_degenerate 0 3 (Or.inl rfl)

/-- Claim C1 counterexample: `ConvertToImage` itself performs no
down-sampling: on a 16-bit-sized buffer (length 1*1*3*2 = 6 for a 1x1 image)
with bitsPerSample 16 it reports a size mismatch instead of down-sampling
and returning a bitmap. -/
theorem convertToImage_16bit_rejected :
    ConvertToImage [0, 0, 0, 0, 0, 0] 1 1 16 =
      .error (sizeMismatchMsg 6 3) := rfl

/-- Claim C1 (amended): the higher-bit-depth convert contract is implemented
by the bit-depth step of `ProcessRaw` followed by `ConvertToImage` at 8, not
by `ConvertToImage` alone: for a 16-bits-per-sample buffer of length
`w*h*3*2` with `w*h*3 < 65536` (so the `C.ushort`-computed intermediate
buffer size is exact), the step right-shifts each 16-bit little-endian
sample by `bitsPerSample - 8 = 8` bits, truncates it to one byte, and the
8-bit expansion then returns a bitmap whose RGB channels are those
down-sampled samples and whose alpha bytes are 255. -/
theorem highDepth_pipeline (data : List Nat) (w h : Nat)
    (hlen : data.length = w * h * 3 * 2) (hbound : w * h * 3 < 65536) :
    ∃ pix8, bitDepthAdjust data w h 16 = some pix8 ∧
      ConvertToImage pix8 w h 8 = .ok ⟨w, h, convertRows pix8 w h⟩ ∧
      ∀ x y, x < w → y < h →
        (∀ c, c < 3 →
          (convertRows pix8 w h).getD ((y * w + x) * 4 + c) 0 =
            (((data.getD (2 * ((y * w + x) * 3 + c)) 0 +
               data.getD (2 * ((y * w + x) * 3 + c) + 1) 0 * 256) % 65536)
              >>> 8) % 256) ∧
        (convertRows pix8 w h).getD ((y * w + x) * 4 + 3) 0 = 255 := by
  have hmod : w * h * 3 % 65536 = w * h * 3 := Nat.mod_eq_of_lt hbound
  obtain ⟨out, hout, houtlen, hget⟩ :=
    downsampleLoop_complete data 16 (w * h * 3) (by omega) (w * h * 3) 0
      (List.replicate (w * h * 3 % 65536) 0) (by omega) (by simp [hmod])
  refine ⟨out, ?_, ?_, ?_⟩
  · rw [bitDepthAdjust, if_pos (by omega)]
    exact hout
  · simp only [ConvertToImage]
    rw [if_neg (by omega)]
  · intro x y hx hy
    have hcomm : w * h = h * w := Nat.mul_comm w h
    have hq : y * w + x < h * w := by
      calc y * w + x < y * w + w := by omega
        _ = (y + 1) * w := by ring
        _ ≤ h * w := Nat.mul_le_mul_right w (by omega)
    refine ⟨fun c hc => ?_, ?_⟩
    · rw [convertRows_getD, if_pos (by omega), rgbaAt, if_neg (by omega)]
      have hidx : ((y * w + x) * 4 + c) / 4 * 3 + ((y * w + x) * 4 + c) % 4 =
          (y * w + x) * 3 + c := by omega
      rw [hidx]
      rw [hget ((y * w + x) * 3 + c) (by omega), if_neg (by omega)]
      rfl
    · rw [convertRows_getD, if_pos (by omega), rgbaAt, if_pos (by omega)]

/-- Claim C1 (amended) witness: the pipeline on a concrete 1x1 16-bit
buffer. -/
theorem highDepth_pipeline_witness :
    ∃ pix8, bitDepthAdjust [52, 18, 255, 0, 0, 255] 1 1 16 = some pix8 ∧
      ConvertToImage pix8 1 1 8 = .ok ⟨1, 1, convertRows pix8 1 1⟩ ∧
      ∀ x y, x < 1 → y < 1 →
        (∀ c, c < 3 →
          (convertRows pix8 1 1).getD ((y * 1 + x) * 4 + c) 0 =
            ((([52, 18, 255, 0, 0, 255].getD (2 * ((y * 1 + x) * 3 + c)) 0 +
               [52, 18, 255, 0, 0, 255].getD
                 (2 * ((y * 1 + x) * 3 + c) + 1) 0 * 256) % 65536)
              >>> 8) % 256) ∧
        (convertRows pix8 1 1).getD ((y * 1 + x) * 4 + 3) 0 = 255 :=
  highDepth_pipeline [52, 18, 255, 0, 0, 255] 1 1 (by decide) (by decide)

/-- Engine outcome for the C2 failing input: a successful decode session that
reports a 1x1 16-bit image but hands over only 4 data bytes, which is not a
multiple of the 6-byte per-pixel stride of 16-bit packed RGB. -/
def engineShortData : EngineSpec :=
  ⟨true, 0, 0, 0, 0, false, fun _ => "", [255, 255, 255, 255], 1, 1, 16, 7⟩

/-- Claim C2 (failing input): the 16-bit conversion path performs no stride
check: on the short buffer the missing blue sample is silently zero-filled
and `ProcessRaw` returns a bitmap (pixel bytes 255, 255, 0, 255) with a nil
error instead of failing. -/
theorem processRaw_shortData_noError :
    ProcessRaw engineShortData =
      some (some ⟨1, 1, [255, 255, 0, 255]⟩, ⟨7, .fromUnix 7⟩, none) := by
  have hbd : bitDepthAdjust [255, 255, 255, 255] 1 1 16 = some [255, 255, 0] := by
    rw [bitDepthAdjust, if_pos (by norm_num)]
    show downsampleLoop [255, 255, 255, 255] 16 0 [0, 0, 0] = some [255, 255, 0]
    rw [downsampleLoop]
    norm_num
    rw [downsampleLoop]
    norm_num
    rw [downsampleLoop]
    norm_num
    decide
  have hpf : processFile engineShortData =
      (.ok ⟨[255, 255, 255, 255], 1, 1, 16⟩, [.ctxAlloc, .memAlloc]) := rfl
  unfold ProcessRaw ProcessRawT
  rw [hpf]
  dsimp only
  rw [hbd]
  rfl

/-- Claim C5 (failing input): at width 256 and height 86 the down-sampling
step computes the output size `width*height*3 = 66048` in `C.ushort`
arithmetic, which wraps to 512; on a uniform 16-bit buffer of the correct
132096-byte length the loop write at index 512 is out of range (a Go index
panic), so the step does not produce the uniform 66048-byte buffer the claim
requires. -/
theorem bitDepthAdjust_overflow_panics :
    bitDepthAdjust (uniform16 0 66048) 256 86 16 = none := by
  have hlen : (uniform16 0 66048).length = 2 * 66048 := by
    rw [uniform16, List.length_flatten, List.map_replicate, List.sum_replicate]
    norm_num
  rw [bitDepthAdjust, if_pos (by omega)]
  have h512 : 256 * 86 * 3 % 65536 = 512 := by norm_num
  rw [h512]
  exact downsampleLoop_oob (uniform16 0 66048) 16 66048 512 hlen (by norm_num)
    512 0 (List.replicate 512 0) (by norm_num) (List.length_replicate 512 0)

/-- Claim C6: whenever `ProcessRaw` returns with a nil error and the
engine-reported capture timestamp is non-zero, the returned metadata has a
non-zero `CaptureTimestamp` and its `CaptureDate` converted back to epoch
seconds equals `CaptureTimestamp`. -/
theorem processRaw_timestamp_roundtrip (e : EngineSpec) (img : Option Bitmap)
    (meta : ImgMetadata) (hok : ProcessRaw e = some (img, meta, none))
    (hts : e.timestamp ≠ 0) :
    meta.CaptureTimestamp ≠ 0 ∧
      meta.CaptureDate.unix = meta.CaptureTimestamp := by
  rcases processRaw_shape e with h0 | ⟨msg, h0⟩ | ⟨bm, h0⟩ <;> rw [h0] at hok
  · exact Option.noConfusion hok
  · simp at hok
  · simp only [Option.some.injEq, Prod.mk.injEq] at hok
    obtain ⟨himg, hmeta, -⟩ := hok
    subst hmeta
    exact ⟨hts, rfl⟩

/-- Engine outcome for the C6 witness: a fully successful 1x1 8-bit session
with capture timestamp 5. -/
def engineGood : EngineSpec :=
  ⟨true, 0, 0, 0, 0, false, fun _ => "", [1, 2, 3], 1, 1, 8, 5⟩

/-- Claim C6 witness: the theorem at the concrete successful session. -/
theorem processRaw_timestamp_roundtrip_witness :
    (⟨5, .fromUnix 5⟩ : ImgMetadata).CaptureTimestamp ≠ 0 ∧
      (⟨5, .fromUnix 5⟩ : ImgMetadata).CaptureDate.unix =
        (⟨5, .fromUnix 5⟩ : ImgMetadata).CaptureTimestamp :=
  processRaw_timestamp_roundtrip engineGood (some ⟨1, 1, [1, 2, 3, 255]⟩)
    ⟨5, .fromUnix 5⟩ rfl (by decide)

/-- Claim C7: whenever `ProcessRaw` returns a non-nil error, the other two
results are zero values: the image is nil and the metadata is the zero
`ImgMetadata`. -/
theorem processRaw_zero_on_error (e : EngineSpec) (img : Option Bitmap)
    (meta : ImgMetadata) (msg : String)
    (h : ProcessRaw e = some (img, meta, some msg)) :
    img = none ∧ meta = zeroMetadata := by
  rcases processRaw_shape e with h0 | ⟨m, h0⟩ | ⟨bm, h0⟩ <;> rw [h0] at h
  · exact Option.noConfusion h
  · simp only [Option.some.injEq, Prod.mk.injEq] at h
    obtain ⟨himg, hmeta, -⟩ := h
    exact ⟨himg.symm, hmeta.symm⟩
  · simp at h

/-- Engine outcome for the C7 witness: `libraw_init` fails. -/
def engineInitFail : EngineSpec :=
  ⟨false, 0, 0, 0, 0, false, fun _ => "", [], 0, 0, 0, 0⟩

/-- Claim C7 witness: the theorem at the concrete failing session. -/
theorem processRaw_zero_on_error_witness :
    (none : Option Bitmap) = none ∧ zeroMetadata = zeroMetadata :=
  processRaw_zero_on_error engineInitFail none zeroMetadata
    ("failed to initialize libraw") rfl

/-- Claim C8: on every exit path of a decode session the resource events are
balanced: the engine context is closed exactly as many times as it was
allocated, the output-image handle is cleared exactly as many times as it
was allocated, and each is acquired at most once — so a failure at any
engine step neither leaks a resource acquired earlier nor releases one
twice. -/
theorem processRaw_resources_balanced (e : EngineSpec) :
    ((ProcessRawEvents e).count Ev.ctxClose =
      (ProcessRawEvents e).count Ev.ctxAlloc) ∧
    ((ProcessRawEvents e).count Ev.memClear =
      (ProcessRawEvents e).count Ev.memAlloc) ∧
    (ProcessRawEvents e).count Ev.ctxAlloc ≤ 1 ∧
    (ProcessRawEvents e).count Ev.memAlloc ≤ 1 := by
  rcases processRawEvents_shape e with h | h | h <;> rw [h] <;>
    exact ⟨rfl, rfl, by decide, by decide⟩
